import Mathlib

/-!
Shallow embedding of the Market/Runner Resolution Engine and the Wager
Settlement Calculator of the horse-racing analytics app (src/app.py),
together with theorems settling the frozen claims about it.

Conventions of the embedding:
* Python `datetime` values are modelled as a naive wall-clock number plus an
  optional UTC offset (`none` = timezone-naive); comparison of aware datetimes
  compares instants, and `replace(tzinfo=timezone.utc)` turns a naive value
  into an aware one with offset 0 (app.py lines 151-156). An order comparison
  between a naive and an aware datetime raises `TypeError` in Python; the sort
  of `fetch_markets` keys on the raw start datetimes, so a partition holding
  both kinds makes the sort raise and the enclosing handler return two empty
  lists plus an error — modelled by `pySortByStart` returning `none` and
  `fetch_markets` taking its error branch.
* Python floats are modelled as rationals `ℚ`; a Python `ZeroDivisionError`
  is modelled by returning `none` from the affected computation.
* An attribute that may be missing (`hasattr` probing) or `None`-valued is
  modelled as an `Option`; the guard `hasattr(r, a) and r.a == v` becomes
  `r.a = some v`.
-/

/-- A Python `datetime`: a naive wall-clock value (one integer, e.g. seconds
since an epoch) plus an optional UTC offset; `tz = none` means the datetime is
timezone-naive. -/
structure PyDatetime where
  naive : Int
  tz : Option Int
deriving DecidableEq

/-- The instant an aware datetime denotes: wall-clock value minus UTC offset.
Python compares aware datetimes by instant. -/
def instantOf (d : PyDatetime) : Int :=
  d.naive - d.tz.getD 0

/-- Python `event_time.replace(tzinfo=timezone.utc)` applied only when the datetime is
naive, exactly as in app.py lines 154-155. -/
def toUtcIfNaive (d : PyDatetime) : PyDatetime :=
  match d.tz with
  | none => { naive := d.naive, tz := some 0 }
  | some _ => d

/-- A market-catalogue entry as the classification code reads it
(`m.market_start_time` plus an identifier). -/
structure MarketSummary where
  market_id : Int
  market_start_time : PyDatetime
deriving DecidableEq

/-- Start instant used for ordering markets: the instant of the (naive-as-UTC)
start datetime. -/
def startInstant (m : MarketSummary) : Int :=
  instantOf (toUtcIfNaive m.market_start_time)

/-- Order on start instants. Python's raw-datetime comparison agrees with it
whenever the two start datetimes are both aware (instants are compared) or
both naive (wall-clock values are compared, and on naive values the
naive-as-UTC instant is the wall-clock value); on a naive/aware pair the
Python comparison raises `TypeError` instead — that raising case is modelled
in `pySortByStart`, not here. -/
def startLe (a b : MarketSummary) : Prop :=
  startInstant a ≤ startInstant b

instance : DecidableRel startLe :=
  fun a b => inferInstanceAs (Decidable (startInstant a ≤ startInstant b))

instance : IsTotal MarketSummary startLe :=
  ⟨fun a b => Int.le_total (startInstant a) (startInstant b)⟩

instance : IsTrans MarketSummary startLe :=
  ⟨fun _ _ _ hab hbc => le_trans hab hbc⟩

/-- The stable ascending sort by start instant: the result Python's stable
`list.sort` produces on the non-raising branch, where all keys are of one
kind and every comparison agrees with `startLe`. -/
def sortByStart (l : List MarketSummary) : List MarketSummary :=
  l.insertionSort startLe

/-- Comparison `event_time > now` with the naive-as-UTC adjustment (app.py lines
153-156). -/
def isUpcoming (now : PyDatetime) (m : MarketSummary) : Bool :=
  decide (instantOf now < startInstant m)

/-- The market's start datetime is timezone-naive. -/
def naiveStart (m : MarketSummary) : Bool :=
  decide (m.market_start_time.tz = none)

/-- The raw-datetime keys of this list mix naive and aware values. -/
def mixesNaiveAware (l : List MarketSummary) : Bool :=
  l.any naiveStart && l.any (fun m => ! naiveStart m)

/-- Python `list.sort(key=lambda x: x.market_start_time)` (app.py lines
158-159), which keys on the raw start datetimes. When naive and aware keys
are both present, CPython's sort reaches a naive-vs-aware comparison (run
detection compares adjacent elements and binary insertion compares each
element against the sorted prefix, so the first element whose kind differs
from its neighbours is compared against the other kind) and raises
`TypeError` — modelled by `none`. With keys of one kind every comparison is
defined and orders by start instant, so the stable sort result is
`sortByStart`. -/
def pySortByStart (l : List MarketSummary) : Option (List MarketSummary) :=
  if mixesNaiveAware l then none else some (sortByStart l)

/-- The classification-and-sort block of `fetch_markets` (app.py lines
151-159): split the catalogue into upcoming/finished by comparing each
(naive-as-UTC) start instant with `now`, then sort each partition on its raw
start datetimes; `none` models an exception escaping the block. -/
def classifyMarkets (now : PyDatetime) (ms : List MarketSummary) :
    Option (List MarketSummary × List MarketSummary) :=
  match pySortByStart (ms.filter (fun m => isUpcoming now m)),
        pySortByStart (ms.filter (fun m => ! isUpcoming now m)) with
  | some u, some f => some (u, f)
  | _, _ => none

/-- Observable result of `fetch_markets` (app.py lines 140-162): the two
sorted lists and no error on success; when the block raises, the handler
returns two empty lists plus the error string (modelled as a Bool flag). -/
def fetch_markets (now : PyDatetime) (ms : List MarketSummary) :
    List MarketSummary × List MarketSummary × Bool :=
  match classifyMarkets now ms with
  | some (u, f) => (u, f, false)
  | none => ([], [], true)

/-- A runner-description record: selection id, display name and the optional
metadata mapping (a Python dict whose values may themselves be `None`). -/
structure RunnerDescription where
  selection_id : Int
  runner_name : String
  metadata : Option (List (String × Option String))
deriving DecidableEq

/-- Python `dict.get`: the value stored under the first matching key, flattened
so that both a missing key and a stored `None` yield `none`. -/
def dictGet (m : List (String × Option String)) (k : String) : Option String :=
  ((m.find? (fun p => p.1 = k)).map Prod.snd).join

/-- Python `value or "N/A"`: the string unless it is missing or empty (both
falsy), in which case the sentinel is used. -/
def pyOrNA (v : Option String) : String :=
  match v with
  | some s => if s = "" then "N/A" else s
  | none => "N/A"

/-- The display-ready record produced by `get_runner_info`. -/
structure RunnerInfo where
  name : String
  cloth_number : String
  jockey : String
  trainer : String
  selection_id : Int
deriving DecidableEq

/-- Function `get_runner_info` (app.py lines 249-258): project a runner description to
a display record, defaulting each metadata field to "N/A". -/
def get_runner_info (r : RunnerDescription) : RunnerInfo :=
  let metadata := r.metadata.getD []
  { name := r.runner_name
    cloth_number := pyOrNA (dictGet metadata "CLOTH_NUMBER")
    jockey := pyOrNA (dictGet metadata "JOCKEY_NAME")
    trainer := pyOrNA (dictGet metadata "TRAINER_NAME")
    selection_id := r.selection_id }

/-- A market-book runner as the resolution code reads it: selection id, the
status tag, the optional explicit finishing position and legacy placement
fields (`none` models both a missing attribute and a stored `None`), and the
optional available-to-back price ladder (`none` models a missing `ex` or
`available_to_back` attribute). -/
structure BookRunner where
  selection_id : Int
  status : Option String
  position : Option Int
  placement : Option Int
  ex_available_to_back : Option (List ℚ)
deriving DecidableEq

/-- Best back odds of one book runner (app.py lines 217-219): the price of the
first element of the available-to-back list when that list is present and
non-empty (an empty list is falsy in Python), else `None`. -/
def bestBackOdds (r : BookRunner) : Option ℚ :=
  match r.ex_available_to_back with
  | some (p :: _) => some p
  | _ => none

/-- Python dict assignment `m[k] = v`: replace the value in place when the key
is present (insertion order kept), else append a new entry. -/
def dictInsertOdds (m : List (Int × Option ℚ)) (k : Int) (v : Option ℚ) :
    List (Int × Option ℚ) :=
  if m.any (fun p => p.1 = k) then
    m.map (fun p => if p.1 = k then (k, v) else p)
  else
    m ++ [(k, v)]

/-- The odds map built by `fetch_market_book_with_odds` (app.py lines
214-220): one dict entry per book runner, keyed by selection id, valued by its
best back odds. -/
def odds_map_of (runners : List BookRunner) : List (Int × Option ℚ) :=
  runners.foldl (fun m r => dictInsertOdds m r.selection_id (bestBackOdds r)) []

/-- The non-runner test used on both race pages (app.py lines 344-346 and
420-421): a book-runner record exists for the selection id and its status is
REMOVED; a falsy (missing) record yields `false`. -/
def isNonRunnerB (bookMap : Int → Option BookRunner) (sid : Int) : Bool :=
  match bookMap sid with
  | some br => decide (br.status = some "REMOVED")
  | none => false

/-- Comparison `odds < lowest_odds` against a running minimum initialised to
`float('inf')` (modelled by `none`). -/
def ltLowest (o : ℚ) (lowest : Option ℚ) : Bool :=
  match lowest with
  | none => true
  | some l => decide (o < l)

/-- The favorite-finding loop of app.py lines 340-351, with the current
favorite and running lowest odds as explicit state. -/
def favLoop (oddsMap : Int → Option ℚ) (bookMap : Int → Option BookRunner) :
    List RunnerDescription → Option Int → Option ℚ → Option Int
  | [], fav, _ => fav
  | r :: rs, fav, lowest =>
    if isNonRunnerB bookMap r.selection_id then
      favLoop oddsMap bookMap rs fav lowest
    else
      match oddsMap r.selection_id with
      | some o =>
        if ltLowest o lowest then
          favLoop oddsMap bookMap rs (some r.selection_id) (some o)
        else
          favLoop oddsMap bookMap rs fav lowest
      | none => favLoop oddsMap bookMap rs fav lowest

/-- Function `favorite_selection_id` (app.py lines 340-351): scan the runner
descriptions in order, skip non-runners, and keep the first runner whose
present odds are strictly below the running minimum. -/
def favorite_selection_id (runners : List RunnerDescription)
    (oddsMap : Int → Option ℚ) (bookMap : Int → Option BookRunner) :
    Option Int :=
  favLoop oddsMap bookMap runners none none

/-- Eligible-with-odds projection of the runner list: one `(selection id,
odds)` pair per runner that is not a non-runner and has present odds. -/
def eligiblePairs (runners : List RunnerDescription)
    (oddsMap : Int → Option ℚ) (bookMap : Int → Option BookRunner) :
    List (Int × ℚ) :=
  runners.filterMap (fun r =>
    if isNonRunnerB bookMap r.selection_id then none
    else (oddsMap r.selection_id).map (fun o => (r.selection_id, o)))

/-- First element of a list attaining the minimum of the second components:
ties keep the earlier element. -/
def firstMin : List (Int × ℚ) → Option (Int × ℚ)
  | [] => none
  | p :: ps =>
    match firstMin ps with
    | none => some p
    | some q => if q.2 < p.2 then some q else some p

/-- Reference definition of SelectFavorite taken from the specification's
words: among runners not flagged non-runner whose odds are present, the first
runner in input order with the strictly lowest odds (ties keep the
first-encountered runner); `none` when no such runner exists. -/
def selectFavoriteSpec (runners : List RunnerDescription)
    (oddsMap : Int → Option ℚ) (bookMap : Int → Option BookRunner) :
    Option Int :=
  (firstMin (eligiblePairs runners oddsMap bookMap)).map Prod.fst

/-- The filter of app.py lines 411-413: book runners whose status is ACTIVE
and that do not carry a non-1, non-null position value. -/
def eligibleActiveB (r : BookRunner) : Bool :=
  decide (r.status = some "ACTIVE") &&
    (decide (r.position = none) || decide (r.position = some 1))

/-- One iteration of the winner-resolution loop body (app.py lines 399-415):
position signal, else placement signal, else — when the market is CLOSED, the
scanned runner is ACTIVE and no winner is recorded yet — the
single-active-runner inference, which assigns the scanned runner's selection
id when exactly one book runner passes the eligibility filter. -/
def winnerStep (mkStatus : Option String) (allRunners : List BookRunner)
    (acc : Option Int) (r : BookRunner) : Option Int :=
  if r.position = some 1 then some r.selection_id
  else if r.placement = some 1 then some r.selection_id
  else if mkStatus = some "CLOSED" ∧ r.status = some "ACTIVE" ∧ acc = none then
    (if (allRunners.filter eligibleActiveB).length = 1 then some r.selection_id
     else acc)
  else acc

/-- Function `winner_selection_id` (app.py lines 396-415): fold the winner-resolution
loop body over the book runners in order, starting from no winner. -/
def winner_selection_id (mkStatus : Option String)
    (runners : List BookRunner) : Option Int :=
  runners.foldl (winnerStep mkStatus runners) none

/-- Result fields of a Win bet (app.py lines 526-530). -/
structure WinSettlement where
  profit : ℚ
  total_return : ℚ
  roi : ℚ
  implied_prob : ℚ
deriving DecidableEq

/-- Win-bet calculation (app.py lines 526-530); `none` models the
`ZeroDivisionError` Python raises when `stake` (ROI) or `odds` (implied
probability) is zero. -/
def settleWin (stake odds : ℚ) : Option WinSettlement :=
  if stake = 0 ∨ odds = 0 then none
  else
    let profit := stake * (odds - 1)
    some { profit := profit
           total_return := stake + profit
           roi := profit / stake * 100
           implied_prob := 1 / odds * 100 }

/-- Result fields of an Each Way bet (app.py lines 543-550). -/
structure EachWaySettlement where
  win_stake : ℚ
  place_stake : ℚ
  place_odds : ℚ
  win_profit : ℚ
  place_profit : ℚ
  total_win_return : ℚ
  total_place_return : ℚ
deriving DecidableEq

/-- Each-Way calculation (app.py lines 543-550); `none` models the
`ZeroDivisionError` Python raises when the place divisor is zero. -/
def settleEachWay (stake odds place_factor : ℚ) : Option EachWaySettlement :=
  if place_factor = 0 then none
  else
    let win_stake := stake / 2
    let place_stake := stake / 2
    let place_odds := odds / place_factor
    let win_profit := win_stake * (odds - 1)
    let place_profit := place_stake * (place_odds - 1)
    some { win_stake := win_stake
           place_stake := place_stake
           place_odds := place_odds
           win_profit := win_profit
           place_profit := place_profit
           total_win_return := win_stake + win_profit
           total_place_return := place_stake + place_profit }

/-- Result fields of a Lay bet (app.py lines 564-567). -/
structure LaySettlement where
  liability : ℚ
  profit_if_loses : ℚ
  total_risk : ℚ
  implied_prob : ℚ
deriving DecidableEq

/-- Lay-bet calculation (app.py lines 564-567); `none` models the
`ZeroDivisionError` Python raises when `odds` is zero. -/
def settleLay (stake odds : ℚ) : Option LaySettlement :=
  if odds = 0 then none
  else
    let liability := stake * (odds - 1)
    some { liability := liability
           profit_if_loses := stake
           total_risk := liability
           implied_prob := 1 / odds * 100 }

/-- Widget lower bound of the stake input (`min_value=0.01`, app.py line
512). -/
def stake_min_value : ℚ := 1 / 100

/-- Widget lower bound of the odds input (`min_value=1.01`, app.py line
516). -/
def odds_min_value : ℚ := 101 / 100

/-- The three each-way place divisors the selectbox offers (app.py lines
518-519). -/
def place_factor_options : List ℚ := [4, 5, 6]

/-- A bet specification as assembled on the Bet Simulator page. -/
structure BetInput where
  stake : ℚ
  odds : ℚ
  place_factor : ℚ
deriving DecidableEq

/-- The values the input widgets can deliver to the calculation block:
stake and odds at or above their widget minima, place divisor drawn from the
selectbox options (app.py lines 512-519). -/
def validBetInput (b : BetInput) : Prop :=
  stake_min_value ≤ b.stake ∧ odds_min_value ≤ b.odds ∧
    b.place_factor ∈ place_factor_options

/-- Helper: the sentinel rule of `value or "N/A"`. -/
theorem pyOrNA_cases (v : Option String) :
    ((v = none ∨ v = some "") → pyOrNA v = "N/A") ∧
    (∀ s, v = some s → s ≠ "" → pyOrNA v = s) := by
  constructor
  · rintro (h | h) <;> simp [pyOrNA, h]
  · intro s hv hs
    simp [pyOrNA, hv, hs]

/-- Claim C9: `get_runner_info` always returns a complete record: the name and
selection id are passed through unchanged, and each of cloth number, jockey and
trainer equals the metadata value when present and non-empty and the sentinel
"N/A" otherwise — also when the metadata mapping is empty or entirely
absent. -/
theorem get_runner_info_complete (r : RunnerDescription) :
    (get_runner_info r).name = r.runner_name ∧
    (get_runner_info r).selection_id = r.selection_id ∧
    ((dictGet (r.metadata.getD []) "CLOTH_NUMBER" = none ∨
      dictGet (r.metadata.getD []) "CLOTH_NUMBER" = some "") →
      (get_runner_info r).cloth_number = "N/A") ∧
    (∀ v, dictGet (r.metadata.getD []) "CLOTH_NUMBER" = some v → v ≠ "" →
      (get_runner_info r).cloth_number = v) ∧
    ((dictGet (r.metadata.getD []) "JOCKEY_NAME" = none ∨
      dictGet (r.metadata.getD []) "JOCKEY_NAME" = some "") →
      (get_runner_info r).jockey = "N/A") ∧
    (∀ v, dictGet (r.metadata.getD []) "JOCKEY_NAME" = some v → v ≠ "" →
      (get_runner_info r).jockey = v) ∧
    ((dictGet (r.metadata.getD []) "TRAINER_NAME" = none ∨
      dictGet (r.metadata.getD []) "TRAINER_NAME" = some "") →
      (get_runner_info r).trainer = "N/A") ∧
    (∀ v, dictGet (r.metadata.getD []) "TRAINER_NAME" = some v → v ≠ "" →
      (get_runner_info r).trainer = v) := by
  refine ⟨rfl, rfl, ?_, ?_, ?_, ?_, ?_, ?_⟩
  · intro h
    exact (pyOrNA_cases _).1 h
  · intro v hv hne
    exact (pyOrNA_cases _).2 v hv hne
  · intro h
    exact (pyOrNA_cases _).1 h
  · intro v hv hne
    exact (pyOrNA_cases _).2 v hv hne
  · intro h
    exact (pyOrNA_cases _).1 h
  · intro v hv hne
    exact (pyOrNA_cases _).2 v hv hne

/-- Witness for claim C9 at a runner with empty metadata. -/
theorem get_runner_info_complete_witness :
    (get_runner_info ⟨12345, "Test Horse", some []⟩).name = "Test Horse" ∧
    (get_runner_info ⟨12345, "Test Horse", some []⟩).selection_id = 12345 ∧
    (get_runner_info ⟨12345, "Test Horse", some []⟩).cloth_number = "N/A" ∧
    (get_runner_info ⟨12345, "Test Horse", some []⟩).jockey = "N/A" ∧
    (get_runner_info ⟨12345, "Test Horse", some []⟩).trainer = "N/A" := by
  have h := get_runner_info_complete ⟨12345, "Test Horse", some []⟩
  exact ⟨h.1, h.2.1, h.2.2.1 (Or.inl rfl), h.2.2.2.2.1 (Or.inl rfl),
    h.2.2.2.2.2.2.1 (Or.inl rfl)⟩

/-- Claim C8: on the each-way precondition domain the calculator splits the
stake evenly, divides the odds by the place divisor, and computes both legs by
the stated formulas, keeping them separate; in particular stake 10, odds 6,
divisor 4 yields winStake 5, placeStake 5, placeOdds 1.5, winProfit 25,
placeProfit 2.5, totalWinReturn 30, totalPlaceReturn 7.5. -/
theorem settle_each_way_formulas (stake odds d : ℚ) (hs : 0 < stake)
    (ho : odds_min_value ≤ odds) (hd : d = 4 ∨ d = 5 ∨ d = 6) :
    settleEachWay stake odds d =
      some { win_stake := stake / 2
             place_stake := stake / 2
             place_odds := odds / d
             win_profit := stake / 2 * (odds - 1)
             place_profit := stake / 2 * (odds / d - 1)
             total_win_return := stake / 2 + stake / 2 * (odds - 1)
             total_place_return := stake / 2 + stake / 2 * (odds / d - 1) } ∧
    settleEachWay 10 6 4 =
      some { win_stake := 5
             place_stake := 5
             place_odds := 3 / 2
             win_profit := 25
             place_profit := 5 / 2
             total_win_return := 30
             total_place_return := 15 / 2 } := by
  have hdz : d ≠ 0 := by
    rcases hd with h | h | h <;> rw [h] <;> norm_num
  constructor
  · simp [settleEachWay, hdz]
  · norm_num [settleEachWay, EachWaySettlement.mk.injEq]

/-- Witness for claim C8 at the concrete instance from the specification. -/
theorem settle_each_way_formulas_witness :
    (0 : ℚ) < 10 ∧
    settleEachWay 10 6 4 =
      some { win_stake := 5
             place_stake := 5
             place_odds := 3 / 2
             win_profit := 25
             place_profit := 5 / 2
             total_win_return := 30
             total_place_return := 15 / 2 } :=
  ⟨by norm_num,
   (settle_each_way_formulas 10 6 4 (by norm_num)
     (by norm_num [odds_min_value]) (Or.inl rfl)).2⟩

/-- Counterexample to claim C5: at odds 1.00 — below the precondition bound —
the Win calculation returns full settlement figures (profit 0, return 10,
ROI 0, implied probability 100) instead of surfacing an error, so the
calculator neither rejects nor refuses to compute for a violating bet spec. -/
theorem settle_computes_at_violating_odds :
    ¬ odds_min_value ≤ (1 : ℚ) ∧
    settleWin 10 1 =
      some { profit := 0, total_return := 10, roi := 0, implied_prob := 100 } := by
  constructor
  · norm_num [odds_min_value]
  · norm_num [settleWin, WinSettlement.mk.injEq]

/-- Claim C5 (amended): rejection of violating bet specs happens at the input
boundary, not inside the calculator — every bet input the widgets can deliver
already satisfies the preconditions (stake > 0, odds ≥ 1.01, divisor in
{4,5,6}), and on that domain all three calculations return figures without
error. -/
theorem settle_boundary_guards (b : BetInput) (h : validBetInput b) :
    (0 < b.stake ∧ (101 / 100 : ℚ) ≤ b.odds ∧
      (b.place_factor = 4 ∨ b.place_factor = 5 ∨ b.place_factor = 6)) ∧
    (settleWin b.stake b.odds).isSome ∧
    (settleEachWay b.stake b.odds b.place_factor).isSome ∧
    (settleLay b.stake b.odds).isSome := by
  obtain ⟨h1, h2, h3⟩ := h
  have hs : 0 < b.stake := lt_of_lt_of_le (by norm_num [stake_min_value]) h1
  have ho : (101 / 100 : ℚ) ≤ b.odds := by
    simpa [odds_min_value] using h2
  have hop : 0 < b.odds := lt_of_lt_of_le (by norm_num) ho
  have hd : b.place_factor = 4 ∨ b.place_factor = 5 ∨ b.place_factor = 6 := by
    simpa [place_factor_options] using h3
  have hdz : b.place_factor ≠ 0 := by
    rcases hd with h4 | h4 | h4 <;> rw [h4] <;> norm_num
  refine ⟨⟨hs, ho, hd⟩, ?_, ?_, ?_⟩
  · simp [settleWin, hs.ne', hop.ne']
  · simp [settleEachWay, hdz]
  · simp [settleLay, hop.ne']

/-- Witness for claim C5 (amended) at a concrete widget-admissible input. -/
theorem settle_boundary_guards_witness :
    validBetInput ⟨10, 6, 4⟩ ∧ (settleWin 10 6).isSome :=
  ⟨⟨by norm_num [stake_min_value], by norm_num [odds_min_value],
     by simp [place_factor_options]⟩,
   (settle_boundary_guards ⟨10, 6, 4⟩
     ⟨by norm_num [stake_min_value], by norm_num [odds_min_value],
      by simp [place_factor_options]⟩).2.1⟩

/-- Claim C1 (failure of the code): the winner-resolution loop evaluates its
priority chain per runner, so a later runner carrying only the lower-priority
placement signal overwrites the position-based winner recorded earlier — on
runner 1 with position 1 followed by runner 2 with placement 1, the code
returns runner 2, not the position-based runner 1. -/
theorem winner_position_overwritten_by_later_placement :
    winner_selection_id none
      [⟨1, some "ACTIVE", some 1, none, none⟩,
       ⟨2, some "ACTIVE", none, some 1, none⟩] = some 2 ∧
    (⟨1, some "ACTIVE", some 1, none, none⟩ : BookRunner).position = some 1 ∧
    (some 2 : Option Int) ≠ some 1 := by
  refine ⟨?_, rfl, by decide⟩
  decide

/-- Counterexample to claim C2: a book runner with status REMOVED that carries
position 1 is returned by the winner resolution, because the position and
placement rules never inspect the status. -/
theorem winner_returns_removed_runner :
    winner_selection_id none [⟨7, some "REMOVED", some 1, none, none⟩] = some 7 ∧
    (⟨7, some "REMOVED", some 1, none, none⟩ : BookRunner).status =
      some "REMOVED" := by
  constructor
  · decide
  · rfl

/-- Counterexample to claim C3: with market CLOSED, no position-1 and no
placement-1 signal, and exactly one eligible ACTIVE runner (id 2), the code
assigns the selection id of the scanned ACTIVE runner that triggered the rule
(id 1, an ACTIVE runner with position 2) instead of the lone eligible
runner. -/
theorem winner_single_active_wrong_runner :
    winner_selection_id (some "CLOSED")
      [⟨1, some "ACTIVE", some 2, none, none⟩,
       ⟨2, some "ACTIVE", none, none, none⟩] = some 1 ∧
    ([⟨1, some "ACTIVE", some 2, none, none⟩,
      ⟨2, some "ACTIVE", none, none, none⟩].filter eligibleActiveB).length = 1 ∧
    ([⟨1, some "ACTIVE", some 2, none, none⟩,
      ⟨2, some "ACTIVE", none, none, none⟩].filter eligibleActiveB) =
      [⟨2, some "ACTIVE", none, none, none⟩] ∧
    (∀ r ∈ [(⟨1, some "ACTIVE", some 2, none, none⟩ : BookRunner),
            ⟨2, some "ACTIVE", none, none, none⟩],
      r.position ≠ some 1 ∧ r.placement ≠ some 1) ∧
    (some 1 : Option Int) ≠ some 2 := by
  refine ⟨?_, ?_, ?_, ?_, by decide⟩
  · decide
  · decide
  · decide
  · decide

/-- Helper: membership is unchanged by the start-time sort. -/
theorem mem_sortByStart {m : MarketSummary} {l : List MarketSummary} :
    m ∈ sortByStart l ↔ m ∈ l := by
  simp [sortByStart]

/-- Helper: when neither partition mixes naive and aware start datetimes, no
sort raises and `fetch_markets` returns the two stably sorted partitions with
no error. -/
theorem fetch_markets_eq_of_not_mixed (now : PyDatetime)
    (ms : List MarketSummary)
    (hup : mixesNaiveAware (ms.filter (fun m => isUpcoming now m)) = false)
    (hfin : mixesNaiveAware (ms.filter (fun m => ! isUpcoming now m)) =
      false) :
    fetch_markets now ms =
      (sortByStart (ms.filter (fun m => isUpcoming now m)),
       sortByStart (ms.filter (fun m => ! isUpcoming now m)), false) := by
  simp [fetch_markets, classifyMarkets, pySortByStart, hup, hfin]

/-- Helper: when either partition mixes naive and aware start datetimes, its
raw-datetime sort raises and `fetch_markets` returns two empty lists and the
error. -/
theorem fetch_markets_error_of_mixed (now : PyDatetime)
    (ms : List MarketSummary)
    (hmix : mixesNaiveAware (ms.filter (fun m => isUpcoming now m)) = true ∨
      mixesNaiveAware (ms.filter (fun m => ! isUpcoming now m)) = true) :
    fetch_markets now ms = ([], [], true) := by
  rcases hmix with hmix | hmix
  · have h1 : pySortByStart (ms.filter (fun m => isUpcoming now m)) =
        none := by
      simp [pySortByStart, hmix]
    cases h2 : pySortByStart (ms.filter (fun m => ! isUpcoming now m)) with
    | none => simp [fetch_markets, classifyMarkets, h1, h2]
    | some f => simp [fetch_markets, classifyMarkets, h1, h2]
  · have h2 : pySortByStart (ms.filter (fun m => ! isUpcoming now m)) =
        none := by
      simp [pySortByStart, hmix]
    cases h1 : pySortByStart (ms.filter (fun m => isUpcoming now m)) with
    | none => simp [fetch_markets, classifyMarkets, h1, h2]
    | some u => simp [fetch_markets, classifyMarkets, h1, h2]

/-- Counterexample to claim C6: with `now` aware at instant 100, a naive
start 200 and an aware start at instant 150 both satisfy the upcoming
condition, so the upcoming partition mixes naive and aware keys; the
raw-datetime sort raises, `fetch_markets` returns two empty lists with an
error, and the naive market is in neither output list although the claim
places it in the upcoming one. -/
theorem classify_markets_mixed_tz_error :
    fetch_markets ⟨100, some 0⟩
      [⟨1, ⟨200, none⟩⟩, ⟨2, ⟨150, some 0⟩⟩] = ([], [], true) ∧
    (⟨1, ⟨200, none⟩⟩ : MarketSummary) ∈
      [(⟨1, ⟨200, none⟩⟩ : MarketSummary), ⟨2, ⟨150, some 0⟩⟩] ∧
    instantOf ⟨100, some 0⟩ < startInstant ⟨1, ⟨200, none⟩⟩ ∧
    (⟨1, ⟨200, none⟩⟩ : MarketSummary) ∉
      (fetch_markets ⟨100, some 0⟩
        [⟨1, ⟨200, none⟩⟩, ⟨2, ⟨150, some 0⟩⟩]).1 ∧
    (⟨1, ⟨200, none⟩⟩ : MarketSummary) ∉
      (fetch_markets ⟨100, some 0⟩
        [⟨1, ⟨200, none⟩⟩, ⟨2, ⟨150, some 0⟩⟩]).2.1 := by
  refine ⟨?_, by decide, by decide, ?_, ?_⟩
  · decide
  · decide
  · decide

/-- Claim C6 (amended): provided neither partition mixes naive and aware
start datetimes — so the raw-datetime sorts cannot raise — `fetch_markets`
reports no error, places a market in the upcoming list iff its start instant
(naive starts read as UTC) is strictly later than `now` and in the finished
list otherwise, the lists are disjoint, no market is in both, their union as
a set is the input set, and empty input yields two empty lists with no
error. On a mixed partition the sort raises and the handler returns two
empty lists plus the error instead. -/
theorem classify_markets_partition (now : PyDatetime) (ms : List MarketSummary)
    (haware : now.tz.isSome)
    (hup : mixesNaiveAware (ms.filter (fun m => isUpcoming now m)) = false)
    (hfin : mixesNaiveAware (ms.filter (fun m => ! isUpcoming now m)) =
      false) :
    (fetch_markets now ms).2.2 = false ∧
    (∀ m : MarketSummary,
      (m ∈ (fetch_markets now ms).1 ↔
        m ∈ ms ∧ instantOf now < startInstant m) ∧
      (m ∈ (fetch_markets now ms).2.1 ↔
        m ∈ ms ∧ ¬ instantOf now < startInstant m) ∧
      ¬ (m ∈ (fetch_markets now ms).1 ∧ m ∈ (fetch_markets now ms).2.1) ∧
      (m ∈ ms ↔
        m ∈ (fetch_markets now ms).1 ∨ m ∈ (fetch_markets now ms).2.1)) ∧
    fetch_markets now [] = ([], [], false) := by
  rw [fetch_markets_eq_of_not_mixed now ms hup hfin]
  refine ⟨rfl, ?_, rfl⟩
  intro m
  have h1 : m ∈ sortByStart (ms.filter (fun m => isUpcoming now m)) ↔
      m ∈ ms ∧ instantOf now < startInstant m := by
    simp [mem_sortByStart, List.mem_filter, isUpcoming]
  have h2 : m ∈ sortByStart (ms.filter (fun m => ! isUpcoming now m)) ↔
      m ∈ ms ∧ ¬ instantOf now < startInstant m := by
    simp [mem_sortByStart, List.mem_filter, isUpcoming]
  refine ⟨h1, h2, ?_, ?_⟩
  · rintro ⟨hm1, hm2⟩
    exact (h2.1 hm2).2 (h1.1 hm1).2
  · constructor
    · intro hm
      by_cases hc : instantOf now < startInstant m
      · exact Or.inl (h1.2 ⟨hm, hc⟩)
      · exact Or.inr (h2.2 ⟨hm, hc⟩)
    · rintro (hm | hm)
      · exact (h1.1 hm).1
      · exact (h2.1 hm).1

/-- Witness for claim C6 (amended): each partition is homogeneous (one naive
upcoming start, one aware finished start), no error is reported, the naive
future start lands in the upcoming list and the aware past start in the
finished list. -/
theorem classify_markets_partition_witness :
    (fetch_markets ⟨100, some 0⟩
      [⟨1, ⟨200, none⟩⟩, ⟨2, ⟨50, some 0⟩⟩]).2.2 = false ∧
    (⟨1, ⟨200, none⟩⟩ : MarketSummary) ∈
      (fetch_markets ⟨100, some 0⟩
        [⟨1, ⟨200, none⟩⟩, ⟨2, ⟨50, some 0⟩⟩]).1 ∧
    (⟨2, ⟨50, some 0⟩⟩ : MarketSummary) ∈
      (fetch_markets ⟨100, some 0⟩
        [⟨1, ⟨200, none⟩⟩, ⟨2, ⟨50, some 0⟩⟩]).2.1 := by
  have h := classify_markets_partition ⟨100, some 0⟩
    [⟨1, ⟨200, none⟩⟩, ⟨2, ⟨50, some 0⟩⟩] rfl (by decide) (by decide)
  exact ⟨h.1, ((h.2.1 _).1).2 ⟨by simp, by decide⟩,
         ((h.2.1 _).2.1).2 ⟨by simp, by decide⟩⟩

/-- Helper: inserting one market commutes with filtering on an exact start
instant; an inserted market with that start instant comes out in front of the
equal-instant markets already present (it is inserted before every market it
compares `≤` to, in particular every equal-instant one). -/
theorem filter_orderedInsert_start (k : Int) (x : MarketSummary) :
    ∀ l : List MarketSummary,
      (List.orderedInsert startLe x l).filter (fun m => startInstant m == k) =
        if startInstant x == k then
          x :: l.filter (fun m => startInstant m == k)
        else l.filter (fun m => startInstant m == k)
  | [] => by
    simp only [List.orderedInsert, List.filter_cons, List.filter_nil]
  | y :: l => by
    have ih := filter_orderedInsert_start k x l
    by_cases hxy : startLe x y
    · rw [List.orderedInsert_of_le _ _ hxy]
      simp [List.filter_cons]
    · have hstep : List.orderedInsert startLe x (y :: l) =
          y :: List.orderedInsert startLe x l := by
        simp [List.orderedInsert, hxy]
      rw [hstep, List.filter_cons, ih, List.filter_cons]
      by_cases hx : (startInstant x == k) = true
      · have hxk : startInstant x = k := by simpa using hx
        have hyk : ¬ (startInstant y == k) = true := by
          intro hyk2
          have hyk3 : startInstant y = k := by simpa using hyk2
          exact hxy (show startInstant x ≤ startInstant y from
            le_of_eq (hxk.trans hyk3.symm))
        simp [hx, hyk]
      · simp [hx]

/-- Helper: the stable sort keeps markets with any given start instant in
their original relative order. -/
theorem filter_sortByStart (k : Int) :
    ∀ l : List MarketSummary,
      (sortByStart l).filter (fun m => startInstant m == k) =
        l.filter (fun m => startInstant m == k)
  | [] => rfl
  | x :: l => by
    have ih := filter_sortByStart k l
    show (List.orderedInsert startLe x
        (List.insertionSort startLe l)).filter (fun m => startInstant m == k) =
      (x :: l).filter (fun m => startInstant m == k)
    have ihs : (List.insertionSort startLe l).filter
        (fun m => startInstant m == k) =
        l.filter (fun m => startInstant m == k) := ih
    rw [filter_orderedInsert_start, List.filter_cons]
    by_cases hx : (startInstant x == k) = true
    · rw [if_pos hx, if_pos hx, ihs]
    · rw [if_neg hx, if_neg hx, ihs]

/-- Counterexample to claim C7: two upcoming markets share start instant 200
but one start is naive and the other aware, so the upcoming partition mixes
kinds, the raw-datetime sort raises and `fetch_markets` returns two empty
lists with an error — the equal-instant markets do not appear in the upcoming
output in their original relative order (they do not appear at all). -/
theorem classify_markets_mixed_tz_unstable :
    fetch_markets ⟨100, some 0⟩
      [⟨1, ⟨200, none⟩⟩, ⟨2, ⟨200, some 0⟩⟩] = ([], [], true) ∧
    startInstant ⟨1, ⟨200, none⟩⟩ = startInstant ⟨2, ⟨200, some 0⟩⟩ ∧
    isUpcoming ⟨100, some 0⟩ ⟨1, ⟨200, none⟩⟩ = true ∧
    isUpcoming ⟨100, some 0⟩ ⟨2, ⟨200, some 0⟩⟩ = true ∧
    (fetch_markets ⟨100, some 0⟩
      [⟨1, ⟨200, none⟩⟩, ⟨2, ⟨200, some 0⟩⟩]).1.filter
        (fun m => startInstant m == 200) ≠
      [(⟨1, ⟨200, none⟩⟩ : MarketSummary), ⟨2, ⟨200, some 0⟩⟩] := by
  refine ⟨?_, by decide, by decide, by decide, ?_⟩
  · decide
  · decide

/-- Claim C7 (amended): for every input list (hence for every permutation of
any list) both output lists of `fetch_markets` are sorted ascending by start
instant — on the exception path they are empty, hence sorted — and, provided
neither partition mixes naive and aware start datetimes (so the raw-datetime
sorts cannot raise), markets sharing a start instant appear within their
partition in their original relative input order (the sort is stable). -/
theorem classify_markets_sorted_stable (now : PyDatetime)
    (ms : List MarketSummary) :
    List.Sorted startLe (fetch_markets now ms).1 ∧
    List.Sorted startLe (fetch_markets now ms).2.1 ∧
    (mixesNaiveAware (ms.filter (fun m => isUpcoming now m)) = false →
      mixesNaiveAware (ms.filter (fun m => ! isUpcoming now m)) = false →
      (∀ k : Int,
        (fetch_markets now ms).1.filter (fun m => startInstant m == k) =
          (ms.filter (fun m => isUpcoming now m)).filter
            (fun m => startInstant m == k)) ∧
      (∀ k : Int,
        (fetch_markets now ms).2.1.filter (fun m => startInstant m == k) =
          (ms.filter (fun m => ! isUpcoming now m)).filter
            (fun m => startInstant m == k))) := by
  by_cases hup : mixesNaiveAware (ms.filter (fun m => isUpcoming now m)) =
    false
  · by_cases hfin : mixesNaiveAware
        (ms.filter (fun m => ! isUpcoming now m)) = false
    · rw [fetch_markets_eq_of_not_mixed now ms hup hfin]
      exact ⟨List.sorted_insertionSort startLe _,
        List.sorted_insertionSort startLe _,
        fun _ _ => ⟨fun k => filter_sortByStart k _,
          fun k => filter_sortByStart k _⟩⟩
    · rw [fetch_markets_error_of_mixed now ms (Or.inr (by simpa using hfin))]
      exact ⟨List.sorted_nil, List.sorted_nil,
        fun _ h2 => absurd h2 hfin⟩
  · rw [fetch_markets_error_of_mixed now ms (Or.inl (by simpa using hup))]
    exact ⟨List.sorted_nil, List.sorted_nil,
      fun h1 _ => absurd h1 hup⟩

/-- Witness for claim C7 (amended) at two equal-instant aware upcoming
markets: the stability clause applies and keeps them in input order. -/
theorem classify_markets_sorted_stable_witness :
    (fetch_markets ⟨0, some 0⟩
      [⟨1, ⟨10, some 0⟩⟩, ⟨2, ⟨10, some 0⟩⟩]).1.filter
        (fun m => startInstant m == 10) =
      [(⟨1, ⟨10, some 0⟩⟩ : MarketSummary), ⟨2, ⟨10, some 0⟩⟩] := by
  have h := classify_markets_sorted_stable ⟨0, some 0⟩
    [⟨1, ⟨10, some 0⟩⟩, ⟨2, ⟨10, some 0⟩⟩]
  rw [(h.2.2 (by decide) (by decide)).1 10]
  decide

/-- Helper: restricting the pair list to entries strictly below a cutoff
commutes with taking the first minimum: the first minimum survives the
restriction exactly when it is itself below the cutoff. -/
theorem firstMin_filter_lt (o : ℚ) :
    ∀ l : List (Int × ℚ),
      firstMin (l.filter (fun x => decide (x.2 < o))) =
        match firstMin l with
        | none => none
        | some q => if q.2 < o then some q else none
  | [] => rfl
  | p :: ps => by
    have ih := firstMin_filter_lt o ps
    by_cases hp : p.2 < o
    · rw [show (p :: ps).filter (fun x => decide (x.2 < o)) =
          p :: ps.filter (fun x => decide (x.2 < o)) from by
            simp [List.filter_cons, hp]]
      simp only [firstMin]
      rw [ih]
      cases hps : firstMin ps with
      | none => simp [hp]
      | some q =>
        by_cases hq : q.2 < o
        · by_cases hqp : q.2 < p.2 <;> simp [hq, hqp, hp]
        · have hqp : ¬ q.2 < p.2 := fun h2 => hq (h2.trans hp)
          simp [hq, hqp, hp]
    · rw [show (p :: ps).filter (fun x => decide (x.2 < o)) =
          ps.filter (fun x => decide (x.2 < o)) from by
            simp [List.filter_cons, hp]]
      rw [ih]
      simp only [firstMin]
      cases hps : firstMin ps with
      | none => simp [hp]
      | some q =>
        by_cases hqp : q.2 < p.2
        · simp [hqp]
        · have ho2 : ¬ q.2 < o := fun h2 =>
            hp (lt_of_le_of_lt (le_of_not_lt hqp) h2)
          simp [hqp, hp, ho2]

/-- Helper: below-new-minimum filtering factors through below-old-bound
filtering once the new minimum itself beats the old bound. -/
theorem filter_ltLowest_some (o : ℚ) (bound : Option ℚ)
    (hb : ltLowest o bound = true) (l : List (Int × ℚ)) :
    l.filter (fun p => ltLowest p.2 (some o)) =
      (l.filter (fun p => ltLowest p.2 bound)).filter
        (fun x => decide (x.2 < o)) := by
  rw [List.filter_filter]
  apply List.filter_congr
  intro p _
  cases bound with
  | none => simp [ltLowest]
  | some b =>
    have hob : o < b := by simpa [ltLowest] using hb
    simp only [ltLowest]
    by_cases hpo : p.2 < o
    · simp [hpo, hpo.trans hob]
    · simp [hpo]

/-- Helper: the favorite loop computes the first minimum of the
eligible-with-odds pairs lying strictly below the running bound, falling back
to the accumulated favorite when no pair does. -/
theorem favLoop_eq_firstMin (oddsMap : Int → Option ℚ)
    (bookMap : Int → Option BookRunner) :
    ∀ (l : List RunnerDescription) (fav : Option Int) (bound : Option ℚ),
      favLoop oddsMap bookMap l fav bound =
        match firstMin ((eligiblePairs l oddsMap bookMap).filter
            (fun p => ltLowest p.2 bound)) with
        | some q => some q.1
        | none => fav
  | [], fav, bound => rfl
  | r :: rs, fav, bound => by
    by_cases hnr : isNonRunnerB bookMap r.selection_id = true
    · have he : eligiblePairs (r :: rs) oddsMap bookMap =
          eligiblePairs rs oddsMap bookMap := by
        simp [eligiblePairs, List.filterMap_cons, hnr]
      rw [show favLoop oddsMap bookMap (r :: rs) fav bound =
          favLoop oddsMap bookMap rs fav bound from by simp [favLoop, hnr]]
      rw [favLoop_eq_firstMin oddsMap bookMap rs fav bound, he]
    · cases ho : oddsMap r.selection_id with
      | none =>
        have he : eligiblePairs (r :: rs) oddsMap bookMap =
            eligiblePairs rs oddsMap bookMap := by
          simp [eligiblePairs, List.filterMap_cons, hnr, ho]
        rw [show favLoop oddsMap bookMap (r :: rs) fav bound =
            favLoop oddsMap bookMap rs fav bound from by
              simp [favLoop, hnr, ho]]
        rw [favLoop_eq_firstMin oddsMap bookMap rs fav bound, he]
      | some o =>
        have he : eligiblePairs (r :: rs) oddsMap bookMap =
            (r.selection_id, o) :: eligiblePairs rs oddsMap bookMap := by
          simp [eligiblePairs, List.filterMap_cons, hnr, ho]
        by_cases hlt : ltLowest o bound = true
        · rw [show favLoop oddsMap bookMap (r :: rs) fav bound =
              favLoop oddsMap bookMap rs (some r.selection_id) (some o) from by
                simp [favLoop, hnr, ho, hlt]]
          rw [favLoop_eq_firstMin oddsMap bookMap rs (some r.selection_id)
            (some o)]
          rw [he]
          rw [show ((r.selection_id, o) ::
              eligiblePairs rs oddsMap bookMap).filter
              (fun p => ltLowest p.2 bound) =
              (r.selection_id, o) ::
                (eligiblePairs rs oddsMap bookMap).filter
                  (fun p => ltLowest p.2 bound) from by
                simp [List.filter_cons, hlt]]
          rw [filter_ltLowest_some o bound hlt]
          rw [firstMin_filter_lt]
          cases hq : firstMin ((eligiblePairs rs oddsMap bookMap).filter
              (fun p => ltLowest p.2 bound)) with
          | none => simp [firstMin, hq]
          | some q =>
            simp only [firstMin, hq]
            by_cases hqo : q.2 < o <;> simp [hqo]
        · rw [show favLoop oddsMap bookMap (r :: rs) fav bound =
              favLoop oddsMap bookMap rs fav bound from by
                simp [favLoop, hnr, ho, hlt]]
          rw [favLoop_eq_firstMin oddsMap bookMap rs fav bound, he]
          rw [show ((r.selection_id, o) ::
              eligiblePairs rs oddsMap bookMap).filter
              (fun p => ltLowest p.2 bound) =
              (eligiblePairs rs oddsMap bookMap).filter
                (fun p => ltLowest p.2 bound) from by
                simp [List.filter_cons, hlt]]

/-- Claim C4: the favorite scan agrees with the specification's description —
among runners not flagged non-runner whose odds are present, it returns the
first runner in input order carrying the strictly lowest odds (ties keep the
first-encountered runner); it returns `none` when no eligible runner has an
odds value; and a selection id with no book-runner record at all is not
flagged as a non-runner. -/
theorem favorite_matches_spec (runners : List RunnerDescription)
    (oddsMap : Int → Option ℚ) (bookMap : Int → Option BookRunner) :
    favorite_selection_id runners oddsMap bookMap =
      selectFavoriteSpec runners oddsMap bookMap ∧
    ((∀ r ∈ runners, isNonRunnerB bookMap r.selection_id = false →
        oddsMap r.selection_id = none) →
      favorite_selection_id runners oddsMap bookMap = none) ∧
    (∀ sid : Int, bookMap sid = none → isNonRunnerB bookMap sid = false) := by
  have hfilter : (eligiblePairs runners oddsMap bookMap).filter
      (fun p => ltLowest p.2 none) = eligiblePairs runners oddsMap bookMap := by
    rw [show (eligiblePairs runners oddsMap bookMap).filter
        (fun p => ltLowest p.2 none) =
        (eligiblePairs runners oddsMap bookMap).filter (fun _ => true) from
      List.filter_congr (fun a _ => rfl)]
    exact List.filter_true _
  have hmain : favorite_selection_id runners oddsMap bookMap =
      selectFavoriteSpec runners oddsMap bookMap := by
    rw [favorite_selection_id, favLoop_eq_firstMin, hfilter,
      selectFavoriteSpec]
    cases firstMin (eligiblePairs runners oddsMap bookMap) <;> rfl
  refine ⟨hmain, ?_, ?_⟩
  · intro h
    have hep : eligiblePairs runners oddsMap bookMap = [] := by
      rw [eligiblePairs, List.filterMap_eq_nil_iff]
      intro r hr
      by_cases hnr : isNonRunnerB bookMap r.selection_id = true
      · simp [hnr]
      · have hodds := h r hr (by simpa using hnr)
        simp [hnr, hodds]
    rw [hmain, selectFavoriteSpec, hep]
    rfl
  · intro sid hb
    simp [isNonRunnerB, hb]

/-- Witness for claim C4 at a concrete runner list and maps: a runner without
any book record is eligible, and with no odds anywhere the favorite is
`none`. -/
theorem favorite_matches_spec_witness :
    favorite_selection_id [⟨7, "Alpha", none⟩] (fun _ => none)
      (fun _ => none) = none ∧
    isNonRunnerB (fun _ => none) 7 = false := by
  have h := favorite_matches_spec [⟨7, "Alpha", none⟩] (fun _ => none)
    (fun _ => none)
  exact ⟨h.2.1 (fun r hr hf => rfl), h.2.2 7 rfl⟩

/-- Helper: once a winner is recorded, a suffix free of position-1 and
placement-1 signals never changes it. -/
theorem winnerLoop_some_fixed (mkStatus : Option String)
    (all : List BookRunner) :
    ∀ (l : List BookRunner) (w : Int),
      (∀ r ∈ l, r.position ≠ some 1) → (∀ r ∈ l, r.placement ≠ some 1) →
      l.foldl (winnerStep mkStatus all) (some w) = some w
  | [], _, _, _ => rfl
  | r :: rs, w, h1, h2 => by
    have hr1 := h1 r (List.mem_cons_self r rs)
    have hr2 := h2 r (List.mem_cons_self r rs)
    have hstep : winnerStep mkStatus all (some w) r = some w := by
      simp [winnerStep, hr1, hr2]
    rw [List.foldl_cons, hstep]
    exact winnerLoop_some_fixed mkStatus all rs w
      (fun x hx => h1 x (List.mem_cons_of_mem r hx))
      (fun x hx => h2 x (List.mem_cons_of_mem r hx))

/-- Helper: starting from no winner, with market CLOSED and no position-1 or
placement-1 signal anywhere in the scanned suffix, the fold returns the first
ACTIVE runner of the suffix precisely when the whole-book eligibility filter
has exactly one element, and `none` otherwise. -/
theorem winnerLoop_none_closed (all : List BookRunner) :
    ∀ l : List BookRunner,
      (∀ r ∈ l, r.position ≠ some 1) → (∀ r ∈ l, r.placement ≠ some 1) →
      l.foldl (winnerStep (some "CLOSED") all) none =
        (if (all.filter eligibleActiveB).length = 1 then
          (l.find? (fun r => decide (r.status = some "ACTIVE"))).map
            (fun r => r.selection_id)
        else none)
  | [], _, _ => by simp
  | r :: rs, h1, h2 => by
    have hr1 := h1 r (List.mem_cons_self r rs)
    have hr2 := h2 r (List.mem_cons_self r rs)
    have h1t := fun x hx => h1 x (List.mem_cons_of_mem r hx)
    have h2t := fun x hx => h2 x (List.mem_cons_of_mem r hx)
    have ih := winnerLoop_none_closed all rs h1t h2t
    by_cases hact : r.status = some "ACTIVE"
    · by_cases hlen : (all.filter eligibleActiveB).length = 1
      · have hstep : winnerStep (some "CLOSED") all none r =
            some r.selection_id := by
          simp [winnerStep, hr1, hr2, hact, hlen]
        rw [List.foldl_cons, hstep,
          winnerLoop_some_fixed (some "CLOSED") all rs r.selection_id h1t h2t,
          if_pos hlen, List.find?_cons_of_pos _ (by simp [hact])]
        rfl
      · have hstep : winnerStep (some "CLOSED") all none r = none := by
          simp [winnerStep, hr1, hr2, hact, hlen]
        rw [List.foldl_cons, hstep, ih, if_neg hlen, if_neg hlen]
    · have hstep : winnerStep (some "CLOSED") all none r = none := by
        simp [winnerStep, hr1, hr2, hact]
      rw [List.foldl_cons, hstep, ih,
        List.find?_cons_of_neg _ (by simp [hact])]

/-- Claim C3 (amended): with market CLOSED and no position-1 or placement-1
signal on any book runner, the winner resolution returns the selection id of
the first ACTIVE runner in scan order when exactly one book runner passes the
eligibility filter (status ACTIVE and no non-1, non-null position) — this is
the lone eligible runner itself only when no earlier ACTIVE runner carries a
non-1 position — and returns `none` when the eligible count differs from
one. -/
theorem winner_single_active_inference (runners : List BookRunner)
    (h1 : ∀ r ∈ runners, r.position ≠ some 1)
    (h2 : ∀ r ∈ runners, r.placement ≠ some 1) :
    winner_selection_id (some "CLOSED") runners =
      (if (runners.filter eligibleActiveB).length = 1 then
        (runners.find? (fun r => decide (r.status = some "ACTIVE"))).map
          (fun r => r.selection_id)
      else none) :=
  winnerLoop_none_closed runners runners h1 h2

/-- Witness for claim C3 (amended): one REMOVED runner followed by one
eligible ACTIVE runner — the eligible count is one and the ACTIVE runner
(id 9) wins. -/
theorem winner_single_active_inference_witness :
    winner_selection_id (some "CLOSED")
      [⟨5, some "REMOVED", none, none, none⟩,
       ⟨9, some "ACTIVE", none, none, none⟩] = some 9 := by
  have h := winner_single_active_inference
    [⟨5, some "REMOVED", none, none, none⟩,
     ⟨9, some "ACTIVE", none, none, none⟩]
    (by decide) (by decide)
  rw [h]
  decide

/-- Helper: any favorite the loop returns either was the accumulated one or
passed the non-runner check when it was recorded. -/
theorem favLoop_not_removed (oddsMap : Int → Option ℚ)
    (bookMap : Int → Option BookRunner) :
    ∀ (l : List RunnerDescription) (fav : Option Int) (bound : Option ℚ),
      (∀ sid : Int, fav = some sid → isNonRunnerB bookMap sid = false) →
      ∀ sid : Int, favLoop oddsMap bookMap l fav bound = some sid →
        isNonRunnerB bookMap sid = false
  | [], _, _, hacc, sid, hres => hacc sid hres
  | r :: rs, fav, bound, hacc, sid, hres => by
    by_cases hnr : isNonRunnerB bookMap r.selection_id = true
    · rw [show favLoop oddsMap bookMap (r :: rs) fav bound =
          favLoop oddsMap bookMap rs fav bound from by
            simp [favLoop, hnr]] at hres
      exact favLoop_not_removed oddsMap bookMap rs fav bound hacc sid hres
    · have hnr2 : isNonRunnerB bookMap r.selection_id = false := by
        simpa using hnr
      cases ho : oddsMap r.selection_id with
      | none =>
        rw [show favLoop oddsMap bookMap (r :: rs) fav bound =
            favLoop oddsMap bookMap rs fav bound from by
              simp [favLoop, hnr, ho]] at hres
        exact favLoop_not_removed oddsMap bookMap rs fav bound hacc sid hres
      | some o =>
        by_cases hlt : ltLowest o bound = true
        · rw [show favLoop oddsMap bookMap (r :: rs) fav bound =
              favLoop oddsMap bookMap rs (some r.selection_id) (some o) from by
                simp [favLoop, hnr, ho, hlt]] at hres
          refine favLoop_not_removed oddsMap bookMap rs
            (some r.selection_id) (some o) ?_ sid hres
          intro s hs
          rw [← Option.some.inj hs]
          exact hnr2
        · rw [show favLoop oddsMap bookMap (r :: rs) fav bound =
              favLoop oddsMap bookMap rs fav bound from by
                simp [favLoop, hnr, ho, hlt]] at hres
          exact favLoop_not_removed oddsMap bookMap rs fav bound hacc sid hres

/-- Helper: any winner the fold records comes from a scanned book runner that
carried a position-1 signal, a placement-1 signal, or status ACTIVE. -/
theorem winnerLoop_selected (mkStatus : Option String)
    (all : List BookRunner) :
    ∀ (l : List BookRunner) (acc : Option Int),
      (acc = none ∨ ∃ s ∈ all, acc = some s.selection_id ∧
        (s.position = some 1 ∨ s.placement = some 1 ∨
          s.status = some "ACTIVE")) →
      (∀ r ∈ l, r ∈ all) →
      (l.foldl (winnerStep mkStatus all) acc = none ∨
        ∃ s ∈ all, l.foldl (winnerStep mkStatus all) acc = some s.selection_id ∧
          (s.position = some 1 ∨ s.placement = some 1 ∨
            s.status = some "ACTIVE"))
  | [], _, hacc, _ => hacc
  | r :: rs, acc, hacc, hsub => by
    rw [List.foldl_cons]
    refine winnerLoop_selected mkStatus all rs (winnerStep mkStatus all acc r)
      ?_ (fun x hx => hsub x (List.mem_cons_of_mem r hx))
    have hrall := hsub r (List.mem_cons_self r rs)
    by_cases hp : r.position = some 1
    · exact Or.inr ⟨r, hrall, by simp [winnerStep, hp], Or.inl hp⟩
    · by_cases hpl : r.placement = some 1
      · exact Or.inr ⟨r, hrall, by simp [winnerStep, hp, hpl],
          Or.inr (Or.inl hpl)⟩
      · by_cases hc : mkStatus = some "CLOSED" ∧ r.status = some "ACTIVE" ∧
            acc = none
        · by_cases hlen : (all.filter eligibleActiveB).length = 1
          · exact Or.inr ⟨r, hrall, by simp [winnerStep, hp, hpl, hc, hlen],
              Or.inr (Or.inr hc.2.1)⟩
          · have hstep : winnerStep mkStatus all acc r = acc := by
              simp [winnerStep, hp, hpl, hc, hlen]
            rw [hstep]
            exact hacc
        · have hstep : winnerStep mkStatus all acc r = acc := by
            simp [winnerStep, hp, hpl, hc]
          rw [hstep]
          exact hacc

/-- Helper: in a list whose entries have pairwise distinct selection ids, two
members sharing a selection id are the same entry. -/
theorem mem_unique_selection (l : List BookRunner)
    (hu : l.Pairwise (fun a b => a.selection_id ≠ b.selection_id)) :
    ∀ r ∈ l, ∀ s ∈ l, r.selection_id = s.selection_id → r = s := by
  induction l with
  | nil =>
    intro r hr
    cases hr
  | cons x t ih =>
    intro r hr s hs heq
    have hx := List.pairwise_cons.1 hu
    rcases List.mem_cons.1 hr with hr1 | hr2
    · rcases List.mem_cons.1 hs with hs1 | hs2
      · rw [hr1, hs1]
      · subst hr1
        exact absurd heq (hx.1 s hs2)
    · rcases List.mem_cons.1 hs with hs1 | hs2
      · subst hs1
        exact absurd heq.symm (hx.1 r hr2)
      · exact ih hx.2 r hr2 s hs2 heq

/-- Claim C2 (amended): the favorite scan never returns a selection id whose
book record is REMOVED (unconditionally); the winner resolution never selects
a REMOVED runner through its single-active-runner rule, but its position and
placement rules do not inspect the status, so it avoids REMOVED runners only
when no REMOVED runner carries a position-1 or placement-1 signal (given
pairwise-distinct selection ids). -/
theorem no_removed_runner_selected :
    (∀ (runners : List RunnerDescription) (oddsMap : Int → Option ℚ)
        (bookMap : Int → Option BookRunner) (sid : Int),
      favorite_selection_id runners oddsMap bookMap = some sid →
        isNonRunnerB bookMap sid = false) ∧
    (∀ (mkStatus : Option String) (runners : List BookRunner),
      runners.Pairwise (fun a b => a.selection_id ≠ b.selection_id) →
      (∀ r ∈ runners, r.status = some "REMOVED" →
        r.position ≠ some 1 ∧ r.placement ≠ some 1) →
      ∀ r ∈ runners, r.status = some "REMOVED" →
        winner_selection_id mkStatus runners ≠ some r.selection_id) := by
  constructor
  · intro runners oddsMap bookMap sid hres
    refine favLoop_not_removed oddsMap bookMap runners none none ?_ sid hres
    intro s hs
    cases hs
  · intro mkStatus runners hu hrem r hr hrstat hwin
    rcases winnerLoop_selected mkStatus runners runners none (Or.inl rfl)
      (fun x hx => hx) with hnone | ⟨s, hs, hws, hsig⟩
    · rw [winner_selection_id] at hwin
      rw [hnone] at hwin
      cases hwin
    · rw [winner_selection_id] at hwin
      rw [hws] at hwin
      have hrs : r = s := mem_unique_selection runners hu r hr s hs
        (Option.some.inj hwin).symm
      subst hrs
      rcases hsig with h | h | h
      · exact (hrem r hr hrstat).1 h
      · exact (hrem r hr hrstat).2 h
      · rw [hrstat] at h
        simp at h

/-- Witness for claim C2 (amended): a favorite produced on a book without any
records is not a non-runner, and a sole REMOVED runner without signals is not
returned as winner. -/
theorem no_removed_runner_selected_witness :
    isNonRunnerB (fun _ => none) 3 = false ∧
    winner_selection_id none [⟨4, some "REMOVED", none, none, none⟩] ≠
      some 4 := by
  have h := no_removed_runner_selected
  refine ⟨h.1 [⟨3, "Beta", none⟩] (fun _ => some 2) (fun _ => none) 3
    (by decide), ?_⟩
  exact h.2 none [⟨4, some "REMOVED", none, none, none⟩] (by decide)
    (by decide) ⟨4, some "REMOVED", none, none, none⟩ (by decide) rfl

/-- Helper: when every scanned selection id is fresh for the accumulated dict
and the ids are pairwise distinct, the dict fold just appends one entry per
runner in scan order. -/
theorem odds_map_foldl_append :
    ∀ (rs : List BookRunner) (m : List (Int × Option ℚ)),
      (∀ r ∈ rs, ∀ p ∈ m, p.1 ≠ r.selection_id) →
      rs.Pairwise (fun a b => a.selection_id ≠ b.selection_id) →
      rs.foldl (fun acc r => dictInsertOdds acc r.selection_id
          (bestBackOdds r)) m =
        m ++ rs.map (fun r => (r.selection_id, bestBackOdds r))
  | [], m, _, _ => by simp
  | r :: rs, m, hfresh, hu => by
    have hpw := List.pairwise_cons.1 hu
    have hnone : m.any (fun p => p.1 = r.selection_id) = false := by
      rw [List.any_eq_false]
      intro p hp
      simp [hfresh r (List.mem_cons_self r rs) p hp]
    have hins : dictInsertOdds m r.selection_id (bestBackOdds r) =
        m ++ [(r.selection_id, bestBackOdds r)] := by
      rw [dictInsertOdds, hnone]
      simp
    have hfresh2 : ∀ x ∈ rs, ∀ p ∈ m ++ [(r.selection_id, bestBackOdds r)],
        p.1 ≠ x.selection_id := by
      intro x hx p hp
      rcases List.mem_append.1 hp with hp1 | hp2
      · exact hfresh x (List.mem_cons_of_mem r hx) p hp1
      · rw [List.mem_singleton] at hp2
        rw [hp2]
        exact hpw.1 x hx
    rw [List.foldl_cons, hins,
      odds_map_foldl_append rs (m ++ [(r.selection_id, bestBackOdds r)])
        hfresh2 hpw.2]
    simp

/-- Helper: filtering the per-runner entry list on a key held by no runner
gives nothing. -/
theorem filter_entries_no_key (k : Int) :
    ∀ rs : List BookRunner, (∀ x ∈ rs, x.selection_id ≠ k) →
      (rs.map (fun x => (x.selection_id, bestBackOdds x))).filter
        (fun p => p.1 == k) = []
  | [], _ => rfl
  | x :: rs, h => by
    have hx : x.selection_id ≠ k := h x (List.mem_cons_self x rs)
    rw [List.map_cons, List.filter_cons]
    simp only [hx, if_neg]
    rw [filter_entries_no_key k rs
      (fun y hy => h y (List.mem_cons_of_mem x hy))]
    simp [hx]

/-- Helper: with pairwise-distinct selection ids, filtering the per-runner
entry list on a member's id keeps exactly that member's entry. -/
theorem filter_entries_unique_key :
    ∀ rs : List BookRunner,
      rs.Pairwise (fun a b => a.selection_id ≠ b.selection_id) →
      ∀ r ∈ rs,
        (rs.map (fun x => (x.selection_id, bestBackOdds x))).filter
          (fun p => p.1 == r.selection_id) =
          [(r.selection_id, bestBackOdds r)]
  | [], _, r, hr => by cases hr
  | x :: rs, hu, r, hr => by
    have hpw := List.pairwise_cons.1 hu
    rcases List.mem_cons.1 hr with hr1 | hr2
    · subst hr1
      rw [List.map_cons, List.filter_cons]
      rw [filter_entries_no_key r.selection_id rs
        (fun y hy => (hpw.1 y hy).symm)]
      simp
    · rw [List.map_cons, List.filter_cons]
      have hx : x.selection_id ≠ r.selection_id := hpw.1 r hr2
      rw [filter_entries_unique_key rs hpw.2 r hr2]
      simp [hx]

/-- Claim C10: under the data-model invariant that selection ids are unique,
the odds map holds exactly one entry per book runner — REMOVED runners
included — keyed by its selection id; the entry's value is the price of the
first element of the runner's available-to-back list when that list is present
and non-empty and `none` when the list is absent or empty; the construction is
total, so sparse price data cannot raise. -/
theorem odds_map_entries (runners : List BookRunner)
    (hu : runners.Pairwise (fun a b => a.selection_id ≠ b.selection_id)) :
    odds_map_of runners =
      runners.map (fun r => (r.selection_id, bestBackOdds r)) ∧
    (∀ r ∈ runners,
      (odds_map_of runners).filter (fun p => p.1 == r.selection_id) =
        [(r.selection_id, bestBackOdds r)]) ∧
    (∀ r : BookRunner,
      ((r.ex_available_to_back = none ∨ r.ex_available_to_back = some []) →
        bestBackOdds r = none) ∧
      (∀ p ps, r.ex_available_to_back = some (p :: ps) →
        bestBackOdds r = some p)) := by
  have hmap : odds_map_of runners =
      runners.map (fun r => (r.selection_id, bestBackOdds r)) := by
    rw [odds_map_of,
      odds_map_foldl_append runners [] (fun r _ p hp => by cases hp) hu]
    simp
  refine ⟨hmap, ?_, ?_⟩
  · intro r hr
    rw [hmap]
    exact filter_entries_unique_key runners hu r hr
  · intro r
    constructor
    · rintro (h | h) <;> simp [bestBackOdds, h]
    · intro p ps h
      simp [bestBackOdds, h]

/-- Witness for claim C10 on a three-runner book: present prices, an empty
ladder and a missing ladder each give the stated entry. -/
theorem odds_map_entries_witness :
    odds_map_of
      [⟨1, some "ACTIVE", none, none, some [7/2, 4]⟩,
       ⟨2, some "REMOVED", none, none, some []⟩,
       ⟨3, some "ACTIVE", none, none, none⟩] =
      [(1, some (7/2)), (2, none), (3, none)] := by
  have h := odds_map_entries
    [⟨1, some "ACTIVE", none, none, some [7/2, 4]⟩,
     ⟨2, some "REMOVED", none, none, some []⟩,
     ⟨3, some "ACTIVE", none, none, none⟩]
    (by simp)
  rw [h.1]
  rfl
